import Mathlib

/-!
Verification of the zExplorer command-line parser (`consoleapp`).

The development shallowly embeds the parsing engine of
`src/consoleapp/include/cmd/parser.inl` together with the data model of
`src/consoleapp/include/cmd_parser.h`.  C++ `std::string_view` values are
embedded as lists of bytes (`List Nat`, each element a byte value), spans of
argument strings as `List Str`, and iterators as indices or suffix lists.
Fallible C++ paths (`expected`) become `Except`; the two places where the
code calls `std::optional::value()` on a possibly empty optional (an
unchecked precondition whose violation throws `bad_optional_access`) are
embedded by wrapping the result in `Option`, with `none` marking that
unhandled state.

Entities declared only in headers absent from the repository snapshot
(`parser.h`, `utils.h`) — the UTF-8 codepoint utilities, the
`required` field of `config::Argument`, the positioned error record and the
`add_flag` / `add_argument` / `add_input` binders — are modelled from the
specification and carry a doc comment saying so.
-/

namespace CmdParser

/-- Byte string: the embedding of `std::string_view`. -/
abbrev Str := List Nat

/-- Grammar flag (`config::Flag` / `cmd::Flag` in `cmd_parser.h`): long name
and optional short name (a Unicode codepoint, `char32_t`). -/
structure Flag where
  longname : Str
  shortname : Option Nat
deriving DecidableEq

/-- Grammar value argument (`config::Argument`).  `longname` and `shortname`
come from `cmd_parser.h`.  Modelled from the spec: the `required` field read
by `parser.inl` line 302 is declared in the missing `parser.h`; §3 of the
spec says the implementation treats required-ness as an explicit flag. -/
structure Argument where
  longname : Str
  shortname : Option Nat
  required : Bool
deriving DecidableEq

/-- Grammar command (`cmd::Command`): long name, optional short name, its
arguments and flags. -/
structure Command where
  longname : Str
  shortname : Option Nat
  arguments : List Argument
  flags : List Flag
deriving DecidableEq

/-- The parser configuration (`cmd::Parser`): an optional global command,
held by value or by reference-to-registered-longname
(`std::variant<Command, std::string_view>`), and the registered commands. -/
structure Config where
  globalCommand : Option (Command ⊕ Str)
  commands : List Command
deriving DecidableEq

/-- Result argument binding (`result::Argument`): name and raw value. -/
structure RArgument where
  name : Str
  value : Str
deriving DecidableEq

/-- Result flag binding (`result::Flag`): name and occurrence count. -/
structure RFlag where
  name : Str
  occurrence : Nat
deriving DecidableEq

/-- Result parameter (`result::Parameter = std::variant<Argument, Flag>`). -/
inductive Parameter where
  | arg : RArgument → Parameter
  | flag : RFlag → Parameter
deriving DecidableEq

/-- Result command (`result::Command`): resolved command name and the bound
parameters in encounter order. -/
structure RCommand where
  name : Str
  parameters : List Parameter
deriving DecidableEq

/-- Parse result (`result::Result`): program name plus the parsed command.
The header also declares a `parameters` member that the engine never
touches; it stays empty. -/
structure RResult where
  program : Str
  command : RCommand
  parameters : List Parameter
deriving DecidableEq

/-- Coarse error classification (`result::Error::Type`). -/
inductive EType where
  | argument
  | flag
  | command
  | none
deriving DecidableEq

/-- Modelled from the spec: the error codes used by `parser.inl` are declared
in the missing `parser.h`; §7 of the spec lists this taxonomy, which matches
the codes the engine constructs. -/
inductive ECode where
  | BadString
  | NoGlobalCommand
  | SyntaxError
  | FlagWithValue
  | MissingValue
  | UnknownParameter
  | RequiredArgument
deriving DecidableEq

/-- Error value (`result::Error`): offending name, optional raw value, type
classification and code. -/
structure Error where
  argument : Str
  value : Option Str
  type : EType
  code : ECode
deriving DecidableEq

/-- Modelled from the spec: `result::PositionnedError` of the missing
`parser.h` — an error plus a zero-based index into the argument vector,
accumulated across parsing layers (§3, §7). -/
structure PositionnedError where
  error : Error
  position : Nat
deriving DecidableEq

/-- Modelled from the spec: `cmd::utils::uni::utf8_char_length` of the
missing `utils.h` (§6) — byte length of the first codepoint of a slice,
read off the leading byte; fails on malformed input at the start. -/
def utf8_char_length (s : Str) : Option Nat :=
  match s with
  | [] => Option.none
  | b :: _ =>
    if b < 128 then some 1
    else if 192 ≤ b ∧ b < 224 then some 2
    else if 224 ≤ b ∧ b < 240 then some 3
    else if 240 ≤ b ∧ b < 248 then some 4
    else Option.none

/-- A UTF-8 continuation byte. -/
def isCont (b : Nat) : Bool := 128 ≤ b ∧ b < 192

/-- Modelled from the spec: `cmd::utils::uni::codepoint` of the missing
`utils.h` (§6) — decodes the first codepoint of a slice; fails on malformed
input at the start (bad leading byte, truncation, bad continuation bytes). -/
def codepoint (s : Str) : Option Nat :=
  match s with
  | [] => Option.none
  | b :: rest =>
    if b < 128 then some b
    else if 192 ≤ b ∧ b < 224 then
      match rest with
      | b1 :: _ => if isCont b1 then some ((b % 32) * 64 + b1 % 64) else Option.none
      | [] => Option.none
    else if 224 ≤ b ∧ b < 240 then
      match rest with
      | b1 :: b2 :: _ =>
        if isCont b1 ∧ isCont b2 then
          some ((b % 16) * 4096 + (b1 % 64) * 64 + b2 % 64)
        else Option.none
      | _ => Option.none
    else if 240 ≤ b ∧ b < 248 then
      match rest with
      | b1 :: b2 :: b3 :: _ =>
        if isCont b1 ∧ isCont b2 ∧ isCont b3 then
          some ((b % 8) * 262144 + (b1 % 64) * 4096 + (b2 % 64) * 64 + b3 % 64)
        else Option.none
      | _ => Option.none
    else Option.none

/-- Token starts with one dash (`starts_with("-")`). -/
def startsWithDash (s : Str) : Bool :=
  match s with
  | b :: _ => b = 45
  | [] => false

/-- Token starts with two dashes (`starts_with("--")`). -/
def startsWith2Dash (s : Str) : Bool :=
  match s with
  | a :: b :: _ => a = 45 ∧ b = 45
  | _ => false

/-- Token starts with three dashes (`starts_with("---")`). -/
def startsWith3Dash (s : Str) : Bool :=
  match s with
  | a :: b :: c :: _ => a = 45 ∧ b = 45 ∧ c = 45
  | _ => false

/-- Helper of `add_flag`: increment the occurrence counter of the flag
entry named `ln`, or append a fresh entry with occurrence 1. -/
def addFlagAux (ps : List Parameter) (ln : Str) : List Parameter :=
  match ps with
  | [] => [Parameter.flag ⟨ln, 1⟩]
  | Parameter.flag f :: rest =>
    if f.name = ln then Parameter.flag ⟨f.name, f.occurrence + 1⟩ :: rest
    else Parameter.flag f :: addFlagAux rest ln
  | p :: rest => p :: addFlagAux rest ln

/-- Modelled from the spec: `Parser::add_flag` is declared in the missing
`parser.h`.  Per §4.5 the binder increments an occurrence counter
associated with the flag's long name rather than appending duplicates, and
the core never fails here (max-occurrence enforcement is explicitly out of
the specified core), so the binder is total. -/
def add_flag (rc : RCommand) (fl : Flag) (_name : Str) : RCommand :=
  { rc with parameters := addFlagAux rc.parameters fl.longname }

/-- Modelled from the spec: `Parser::add_argument` is declared in the
missing `parser.h`.  Per §4.5 each occurrence appends a `{name, value}`
pair; §4.6/§8 require a short-form supply to satisfy the long-name
required-set check, so the recorded name is the registered long name. -/
def add_argument (rc : RCommand) (a : Argument) (_name : Str) (value : Str) : RCommand :=
  { rc with parameters := rc.parameters ++ [Parameter.arg ⟨a.longname, value⟩] }

/-- Modelled from the spec: `Parser::add_input` is declared in the missing
`parser.h`.  Per §4.2 a positional input is accepted as opaque data, not
matched against named arguments (the "TODO input" path), and binds
successfully; the empty name keeps it apart from every named argument. -/
def add_input (rc : RCommand) (_cmd : Command) (tok : Str) : RCommand :=
  { rc with parameters := rc.parameters ++ [Parameter.arg ⟨[], tok⟩] }

/-- Long-option split of `parser.inl` lines 85-94: find the first `=`;
without one the candidate is a flag name (`substr(2)`), with one the name is
`substr(2, pos-2)` and the value everything after the `=`. -/
def longSplit (arg : Str) : Str × Option Str :=
  match arg.findIdx? (fun b => b = 61) with
  | Option.none => (arg.drop 2, Option.none)
  | some p => ((arg.take p).drop 2, some (arg.drop (p + 1)))

/-- `Parser::parse_long_argument` (`parser.inl` lines 79-146): resolve a
`--name` / `--name=value` token, flags first and then arguments, by exact
long-name equality. -/
def parse_long_argument (arg : Str) (cmd : Command) (rc : RCommand) :
    Except PositionnedError RCommand :=
  let nv := longSplit arg
  let name := nv.1
  let value := nv.2
  match cmd.flags.find? (fun f => f.longname == name) with
  | some fl =>
    match value with
    | some v => Except.error ⟨⟨name, some v, EType.flag, ECode.FlagWithValue⟩, 0⟩
    | Option.none => Except.ok (add_flag rc fl name)
  | Option.none =>
    match cmd.arguments.find? (fun a => a.longname == name) with
    | some a =>
      match value with
      | Option.none => Except.error ⟨⟨name, Option.none, EType.argument, ECode.MissingValue⟩, 0⟩
      | some v => Except.ok (add_argument rc a name v)
    | Option.none =>
      Except.error ⟨⟨name, value, EType.argument, ECode.UnknownParameter⟩, 0⟩

/-- Short-flag lookup by codepoint equality (`flag.shortname == codepoint`). -/
def shortFlagLookup (cmd : Command) (cp : Nat) : Option Flag :=
  cmd.flags.find? (fun f => f.shortname == some cp)

/-- Short-argument lookup by codepoint equality. -/
def shortArgLookup (cmd : Command) (cp : Nat) : Option Argument :=
  cmd.arguments.find? (fun a => a.shortname == some cp)

/-- The combined-form loop of `parser.inl` lines 157-201: consume the name
portion codepoint by codepoint (`rest` is the unconsumed suffix,
`name.substr(iName)`), resolving each as a flag short name; a failed decode
fails `BadString`, an unresolvable codepoint fails `UnknownParameter`, both
naming the full name portion.  The advance `iName += len` appears as
`r1.drop (len - 1)`, which equals `(b :: r1).drop len` because a decoded
length is always between 1 and 4. -/
def parseMultiFlags (cmd : Command) (fullname : Str) (rest : Str) (rc : RCommand) :
    Except PositionnedError RCommand :=
  match rest with
  | [] => Except.ok rc
  | b :: r1 =>
    match utf8_char_length (b :: r1) with
    | Option.none => Except.error ⟨⟨fullname, Option.none, EType.flag, ECode.BadString⟩, 0⟩
    | some len =>
      match codepoint ((b :: r1).take len) with
      | Option.none => Except.error ⟨⟨fullname, Option.none, EType.flag, ECode.BadString⟩, 0⟩
      | some cp =>
        match shortFlagLookup cmd cp with
        | Option.none =>
          Except.error ⟨⟨fullname, Option.none, EType.flag, ECode.UnknownParameter⟩, 0⟩
        | some fl =>
          parseMultiFlags cmd fullname (r1.drop (len - 1)) (add_flag rc fl fullname)
termination_by rest.length
decreasing_by
  simp only [List.length_drop, List.length_cons]
  omega

/-- `Parser::parse_short_argument` (`parser.inl` lines 148-261) on the
remaining-token suffix (`itarg` view).  Returns `none` for the unchecked
`utf8_char_length(name).value()` of line 155 (an unhandled
`bad_optional_access` on a malformed leading byte), otherwise the binding
outcome together with how far the iterator advanced (1 when the next token
was touched as a value, 0 otherwise). -/
def parse_short_argument (remaining : List Str) (cmd : Command) (rc : RCommand) :
    Option ((Except PositionnedError RCommand) × Nat) :=
  let arg := remaining.getD 0 []
  let name := arg.drop 1
  match utf8_char_length name with
  | Option.none => Option.none
  | some len0 =>
    if len0 < name.length then
      some (parseMultiFlags cmd name name rc, 0)
    else
      match codepoint name with
      | Option.none =>
        some (Except.error ⟨⟨name, Option.none, EType.flag, ECode.BadString⟩, 0⟩, 0)
      | some cp =>
        match shortFlagLookup cmd cp with
        | some fl => some (Except.ok (add_flag rc fl name), 0)
        | Option.none =>
          match shortArgLookup cmd cp with
          | some a =>
            match remaining with
            | _ :: v :: _ => some (Except.ok (add_argument rc a name v), 1)
            | _ =>
              some (Except.error ⟨⟨name, Option.none, EType.argument, ECode.MissingValue⟩, 0⟩, 1)
          | Option.none =>
            some (Except.error ⟨⟨name, Option.none, EType.argument, ECode.UnknownParameter⟩, 0⟩, 0)

/-- The token dispatch loop of `Parser::parse_command` (`parser.inl` lines
269-298).  `rest` is the unprocessed suffix of the sub-slice and `i` its
start index within the sub-slice, so errors leave with the local position
`i` (plus the iterator advance) added on.  A value-consuming short option
skips the consumed token.  Returns `none` when short parsing reached its
unhandled state. -/
def dispatch_loop (cmd : Command) (rest : List Str) (i : Nat) (rc : RCommand) :
    Option (Except PositionnedError RCommand) :=
  match rest with
  | [] => some (Except.ok rc)
  | name :: more =>
    if startsWith3Dash name then
      some (Except.error ⟨⟨name, Option.none, EType.none, ECode.SyntaxError⟩, i⟩)
    else if startsWith2Dash name then
      match parse_long_argument name cmd rc with
      | Except.error e => some (Except.error { e with position := e.position + i })
      | Except.ok rc1 => dispatch_loop cmd more (i + 1) rc1
    else if startsWithDash name then
      match parse_short_argument (name :: more) cmd rc with
      | Option.none => Option.none
      | some (Except.error e, adv) =>
        some (Except.error { e with position := e.position + (i + adv) })
      | some (Except.ok rc1, 0) => dispatch_loop cmd more (i + 1) rc1
      | some (Except.ok rc1, _ + 1) =>
        match more with
        | [] => some (Except.ok rc1)
        | _ :: more1 => dispatch_loop cmd more1 (i + 2) rc1
    else
      dispatch_loop cmd more (i + 1) (add_input rc cmd name)

/-- Long names of the bound argument parameters (the erase loop of
`parser.inl` lines 306-313 removes exactly these from the required set). -/
def boundArgNames (ps : List Parameter) : List Str :=
  ps.filterMap (fun p =>
    match p with
    | Parameter.arg a => some a.name
    | Parameter.flag _ => Option.none)

/-- The required-argument set after the erase loop (`parser.inl` lines
300-313): long names of required arguments minus the names bound as
argument parameters. -/
def missingRequired (cmd : Command) (rc : RCommand) : List Str :=
  ((cmd.arguments.filter (fun a => a.required)).map (fun a => a.longname)).filter
    (fun n => !((boundArgNames rc.parameters).contains n))

/-- Post-validation of `parser.inl` lines 299-324: if required long names
remain unbound, fail `RequiredArgument` naming one of them (the C++
reports an arbitrary element of an `unordered_set`; the model reports the
first in registration order). -/
def post_validate (cmd : Command) (rc : RCommand) : Except PositionnedError RCommand :=
  match missingRequired cmd rc with
  | [] => Except.ok rc
  | m :: _ => Except.error ⟨⟨m, Option.none, EType.argument, ECode.RequiredArgument⟩, 0⟩

/-- `Parser::parse_command` (`parser.inl` lines 265-326): run the dispatch
loop from the start of the sub-slice, then post-validate required
arguments. -/
def parse_command (args : List Str) (cmd : Command) :
    Option (Except PositionnedError RCommand) :=
  match dispatch_loop cmd args 0 ⟨cmd.longname, []⟩ with
  | Option.none => Option.none
  | some (Except.error e) => some (Except.error e)
  | some (Except.ok rc) => some (post_validate cmd rc)

/-- `Parser::get_global_command` (`cmd_parser.h` lines 206-219): resolve the
global command, by value or by looking up its registered long name. -/
def get_global_command (p : Config) : Option Command :=
  match p.globalCommand with
  | Option.none => Option.none
  | some (Sum.inl c) => some c
  | some (Sum.inr n) => p.commands.find? (fun c => c.longname == n)

/-- Command resolution, the first phase of `Parser::parse` (`parser.inl`
lines 17-56) over the tokens after the program name.  Returns the selected
command (if any) and the index of the first command token in the full
vector (1 when the leading token stays unconsumed, 2 when it named a
command).  `none` embeds the unchecked `codepoint(*itarg).value()` of
line 40. -/
def resolve_command (p : Config) (rest : List Str) :
    Option (Except PositionnedError (Option Command × Nat)) :=
  match rest with
  | [] => some (Except.ok (get_global_command p, 1))
  | t :: _ =>
    if startsWithDash t then
      some (Except.ok (get_global_command p, 1))
    else
      match utf8_char_length t with
      | Option.none =>
        some (Except.error ⟨⟨[], Option.none, EType.none, ECode.BadString⟩, 1⟩)
      | some clen =>
        if clen ≤ t.length then
          match codepoint t with
          | Option.none => Option.none
          | some cp =>
            match p.commands.find? (fun c => c.shortname == some cp) with
            | some c => some (Except.ok (some c, 2))
            | Option.none => some (Except.ok (get_global_command p, 1))
        else
          match p.commands.find? (fun c => c.longname == t) with
          | some c => some (Except.ok (some c, 2))
          | Option.none => some (Except.ok (get_global_command p, 1))

/-- `Parser::parse` (`parser.inl` lines 13-77): read the program name,
resolve the governing command, parse the remaining sub-slice and correct
the returned error position by the sub-slice's base offset.  `none` on the
empty vector embeds the unconditional `args[0]` read. -/
def parse (p : Config) (args : List Str) : Option (Except PositionnedError RResult) :=
  match args with
  | [] => Option.none
  | prog :: rest =>
    match resolve_command p rest with
    | Option.none => Option.none
    | some (Except.error e) => some (Except.error e)
    | some (Except.ok (copt, d)) =>
      match copt with
      | Option.none =>
        some (Except.error ⟨⟨[], Option.none, EType.command, ECode.NoGlobalCommand⟩, d⟩)
      | some c =>
        match parse_command ((prog :: rest).drop d) c with
        | Option.none => Option.none
        | some (Except.error e) =>
          some (Except.error { e with position := e.position + d })
        | some (Except.ok rcmd) => some (Except.ok ⟨prog, rcmd, []⟩)

/-- Total occurrence count recorded for flag name `n` among the bound
parameters. -/
def flagOccurrence (ps : List Parameter) (n : Str) : Nat :=
  (ps.filterMap (fun p =>
    match p with
    | Parameter.flag f => if f.name = n then some f.occurrence else Option.none
    | Parameter.arg _ => Option.none)).sum

/-- The codepoint sequence of a byte string, decoded left to right exactly
as the combined-form loop walks it; `none` when some decode point fails. -/
def decodeCodepoints (s : Str) : Option (List Nat) :=
  match s with
  | [] => some []
  | b :: r1 =>
    match utf8_char_length (b :: r1) with
    | Option.none => Option.none
    | some len =>
      match codepoint ((b :: r1).take len) with
      | Option.none => Option.none
      | some cp =>
        match decodeCodepoints (r1.drop (len - 1)) with
        | Option.none => Option.none
        | some cps => some (cp :: cps)
termination_by s.length
decreasing_by
  simp only [List.length_drop, List.length_cons]
  omega

/-- Left-to-right binding of a codepoint sequence as short flags (the
successful trajectory of the combined-form loop). -/
def bindFlags (cmd : Command) (fullname : Str) (cps : List Nat) (rc : RCommand) : RCommand :=
  cps.foldl (fun acc cp =>
    match shortFlagLookup cmd cp with
    | some fl => add_flag acc fl fullname
    | Option.none => acc) rc

/-- Empty in-progress result command used as a concrete starting point. -/
def rc0 : RCommand := ⟨[], []⟩

/-- Fixture: one registered command with long name "help" and no short
name, no global command. -/
def cfgC1 : Config := ⟨Option.none, [⟨[104, 101, 108, 112], Option.none, [], []⟩]⟩

/-- Fixture: a command owning the flag "all" (short 'a') and the value
argument "num" (short 'n'). -/
def cmdC2 : Command :=
  ⟨[99], Option.none, [⟨[110, 117, 109], some 110, false⟩], [⟨[97, 108, 108], some 97⟩]⟩

/-- Fixture: a command owning the flags "aa" (short 'a') and "bb"
(short 'b'). -/
def cmdC3 : Command :=
  ⟨[99], Option.none, [], [⟨[97, 97], some 97⟩, ⟨[98, 98], some 98⟩]⟩

/-- Fixture: a command with the required value argument "out" (short 'o'). -/
def cmdC4 : Command := ⟨[99], Option.none, [⟨[111, 117, 116], some 111, true⟩], []⟩

/-- Fixture: a global command with the optional value argument "num"
(short 'n'). -/
def cfgC5 : Config :=
  ⟨some (Sum.inl ⟨[103], Option.none, [⟨[110, 117, 109], some 110, false⟩], []⟩), []⟩

/-- Fixture: a global command plus one registered command "other", for the
fallback behaviour. -/
def cfgC6 : Config :=
  ⟨some (Sum.inl ⟨[103], Option.none, [], []⟩),
    [⟨[111, 116, 104, 101, 114], Option.none, [], []⟩]⟩

/-- Fixture: a command with the value argument "num" (short 'n') and no
flags. -/
def cmdC7 : Command := ⟨[99], Option.none, [⟨[110, 117, 109], some 110, false⟩], []⟩

/-- Fixture: a bare global command. -/
def cfgC8 : Config := ⟨some (Sum.inl ⟨[103], Option.none, [], []⟩), []⟩

/-- Fixture: a bare global command, for the program-name claim. -/
def cfgC9 : Config := ⟨some (Sum.inl ⟨[103], Option.none, [], []⟩), []⟩

/-- C10: `parse` reads `args[0]` before any length check, so the empty
argument vector lies outside its domain; the embedding marks that
out-of-domain read with `none`, and `parse` is `none` on the empty vector
for every configuration. -/
theorem claim_C10 : ∀ (p : Config), parse p [] = Option.none := fun _ => rfl

/-- C9: whenever `parse` succeeds, the `program` field of the result is the
first entry of the argument vector, verbatim. -/
theorem claim_C9 (p : Config) (args : List Str) (r : RResult)
    (h : parse p args = some (Except.ok r)) : r.program = args.getD 0 [] := by
  cases args with
  | nil => simp [parse] at h
  | cons prog rest =>
    simp only [parse] at h
    cases hres : resolve_command p rest with
    | none => rw [hres] at h; exact absurd h (by simp)
    | some x =>
      cases x with
      | error e => rw [hres] at h; exact absurd h (by simp)
      | ok pr =>
        obtain ⟨copt, d⟩ := pr
        rw [hres] at h
        cases copt with
        | none => exact absurd h (by simp)
        | some c =>
          simp only at h
          cases hpc : parse_command ((prog :: rest).drop d) c with
          | none => rw [hpc] at h; exact absurd h (by simp)
          | some y =>
            cases y with
            | error e => rw [hpc] at h; exact absurd h (by simp)
            | ok rcmd =>
              rw [hpc] at h
              simp only [Option.some_inj, Except.ok.injEq] at h
              subst h
              rfl

/-- C9 witness: a concrete successful parse (program name only, global
command selected) whose `program` field is the first argument. -/
theorem claim_C9_witness :
    (⟨[112], ⟨[103], []⟩, []⟩ : RResult).program = ([[112]] : List Str).getD 0 [] :=
  claim_C9 cfgC9 [[112]] ⟨[112], ⟨[103], []⟩, []⟩ (by
    simp [parse, resolve_command, cfgC9, get_global_command, parse_command, dispatch_loop,
      post_validate, missingRequired, boundArgNames])

/-- C1: the resolver is meant to search by short name exactly for
one-codepoint tokens (so says the spec and the comment in the source), but
`parser.inl` line 39 tests `char_len <= size` instead of equality, so the
4-byte token "help" is looked up by short name, misses the command
registered under the long name "help", and the parse falls back to the
absent global command and fails `NoGlobalCommand`. -/
theorem claim_C1_code_behavior :
    parse cfgC1 [[112, 114, 111, 103], [104, 101, 108, 112]] =
      some (Except.error ⟨⟨[], Option.none, EType.command, ECode.NoGlobalCommand⟩, 1⟩)
    ∧ cfgC1.commands.find? (fun c => c.longname == [104, 101, 108, 112]) =
      some ⟨[104, 101, 108, 112], Option.none, [], []⟩ := by
  constructor
  · simp [parse, resolve_command, cfgC1, utf8_char_length, codepoint, startsWithDash,
      get_global_command, List.find?]
  · rfl

/-- C8: short-option parsing is meant to turn every decode failure into a
`BadString` error, but the length pre-check of `parser.inl` line 155 calls
`value()` on the unchecked result of `utf8_char_length`, so the token
`-\xFF` (name portion `0xFF`, malformed at the first decode point) reaches
the unhandled state (embedded as `none`) instead of producing any error
value. -/
theorem claim_C8_code_behavior :
    parse cfgC8 [[112], [45, 255]] = Option.none := by
  simp [parse, resolve_command, cfgC8, get_global_command, startsWithDash, parse_command,
    dispatch_loop, startsWith3Dash, startsWith2Dash, parse_short_argument, utf8_char_length]

/-- Binding a flag raises the occurrence count recorded for its long name
by exactly one. -/
theorem addFlagAux_occurrence (ps : List Parameter) (ln : Str) :
    flagOccurrence (addFlagAux ps ln) ln = flagOccurrence ps ln + 1 := by
  induction ps with
  | nil => simp [addFlagAux, flagOccurrence]
  | cons p rest ih =>
    cases p with
    | arg a => simpa [addFlagAux, flagOccurrence] using ih
    | flag f =>
      by_cases hf : f.name = ln
      · simp [addFlagAux, flagOccurrence, hf]
        omega
      · simp only [addFlagAux, if_neg hf]
        simpa [flagOccurrence, hf] using ih

/-- C2: resolution of a `--` token tries flags first and then arguments by
exact long-name equality, with exactly the claimed outcomes: a matched flag
with a value fails `FlagWithValue`; a matched flag without a value binds
one flag occurrence (the recorded count for its long name rises by one); a
matched argument without a value fails `MissingValue`; a matched argument
with a value binds the name/value pair; a token matching neither fails
`UnknownParameter`. -/
theorem claim_C2 (cmd : Command) (rc : RCommand) (arg name : Str) (value : Option Str)
    (hsplit : longSplit arg = (name, value)) :
    (∀ fl, cmd.flags.find? (fun f => f.longname == name) = some fl →
      (∀ v, value = some v →
        parse_long_argument arg cmd rc =
          Except.error ⟨⟨name, some v, EType.flag, ECode.FlagWithValue⟩, 0⟩)
      ∧ (value = Option.none →
        parse_long_argument arg cmd rc = Except.ok (add_flag rc fl name)
        ∧ flagOccurrence (add_flag rc fl name).parameters fl.longname
            = flagOccurrence rc.parameters fl.longname + 1))
    ∧ (cmd.flags.find? (fun f => f.longname == name) = Option.none →
      (∀ a, cmd.arguments.find? (fun x => x.longname == name) = some a →
        (value = Option.none →
          parse_long_argument arg cmd rc =
            Except.error ⟨⟨name, Option.none, EType.argument, ECode.MissingValue⟩, 0⟩)
        ∧ (∀ v, value = some v →
          parse_long_argument arg cmd rc = Except.ok (add_argument rc a name v)))
      ∧ (cmd.arguments.find? (fun x => x.longname == name) = Option.none →
        parse_long_argument arg cmd rc =
          Except.error ⟨⟨name, value, EType.argument, ECode.UnknownParameter⟩, 0⟩)) := by
  constructor
  · intro fl hfl
    constructor
    · intro v hv
      subst hv
      simp [parse_long_argument, hsplit, hfl]
    · intro hv
      subst hv
      refine ⟨by simp [parse_long_argument, hsplit, hfl], ?_⟩
      simp [add_flag, addFlagAux_occurrence]
  · intro hfl
    constructor
    · intro a ha
      constructor
      · intro hv
        subst hv
        simp [parse_long_argument, hsplit, hfl, ha]
      · intro v hv
        subst hv
        simp [parse_long_argument, hsplit, hfl, ha]
    · intro ha
      simp [parse_long_argument, hsplit, hfl, ha]

/-- C2 witness: on the command owning flag "all" and argument "num", the
token `--all` binds one occurrence of the flag. -/
theorem claim_C2_witness :
    parse_long_argument [45, 45, 97, 108, 108] cmdC2 rc0 =
      Except.ok (add_flag rc0 ⟨[97, 108, 108], some 97⟩ [97, 108, 108]) :=
  (((claim_C2 cmdC2 rc0 [45, 45, 97, 108, 108] [97, 108, 108] Option.none
      (by simp [longSplit])).1 ⟨[97, 108, 108], some 97⟩ (by rfl)).2 rfl).1

/-- C7: a single-codepoint short token that is no flag short name but
matches an argument short name consumes the next token as the argument's
value (the iterator advances over it); with no next token it fails
`MissingValue`; matching neither a flag nor an argument fails
`UnknownParameter`. -/
theorem claim_C7 (remaining : List Str) (cmd : Command) (rc : RCommand)
    (name : Str) (len0 cp : Nat)
    (hn : (remaining.getD 0 []).drop 1 = name)
    (hlen : utf8_char_length name = some len0)
    (hsingle : ¬ len0 < name.length)
    (hcp : codepoint name = some cp)
    (hflag : shortFlagLookup cmd cp = Option.none) :
    (∀ a, shortArgLookup cmd cp = some a →
      (∀ t v more, remaining = t :: v :: more →
        parse_short_argument remaining cmd rc = some (Except.ok (add_argument rc a name v), 1))
      ∧ (remaining.length ≤ 1 →
        parse_short_argument remaining cmd rc =
          some (Except.error ⟨⟨name, Option.none, EType.argument, ECode.MissingValue⟩, 0⟩, 1)))
    ∧ (shortArgLookup cmd cp = Option.none →
      parse_short_argument remaining cmd rc =
        some (Except.error ⟨⟨name, Option.none, EType.argument, ECode.UnknownParameter⟩, 0⟩, 0)) := by
  constructor
  · intro a ha
    constructor
    · intro t v more hrem
      subst hrem
      simp only [List.getD_cons_zero] at hn
      simp [parse_short_argument, hn, hlen, hsingle, hcp, hflag, ha]
    · intro hle
      cases remaining with
      | nil =>
        simp only [List.getD] at hn
        rw [← hn] at hlen
        simp [utf8_char_length] at hlen
      | cons t rest1 =>
        cases rest1 with
        | nil =>
          simp only [List.getD_cons_zero] at hn
          simp [parse_short_argument, hn, hlen, hsingle, hcp, hflag, ha]
        | cons v more => simp at hle
  · intro ha
    cases remaining with
    | nil =>
      simp only [List.getD] at hn
      rw [← hn] at hlen
      simp [utf8_char_length] at hlen
    | cons t rest1 =>
      simp only [List.getD_cons_zero] at hn
      cases rest1 with
      | nil => simp [parse_short_argument, hn, hlen, hsingle, hcp, hflag, ha]
      | cons v more => simp [parse_short_argument, hn, hlen, hsingle, hcp, hflag, ha]

/-- C7 witness: on the command with argument "num" (short 'n'), the token
`-n` followed by the token `v` binds the argument to that next token. -/
theorem claim_C7_witness :
    parse_short_argument [[45, 110], [118]] cmdC7 rc0 =
      some (Except.ok (add_argument rc0 ⟨[110, 117, 109], some 110, false⟩ [110] [118]), 1) :=
  ((claim_C7 [[45, 110], [118]] cmdC7 rc0 [110] 1 110 rfl rfl (by decide) rfl
      (by decide)).1 ⟨[110, 117, 109], some 110, false⟩ (by decide)).1 [45, 110] [118] [] rfl

/-- C6: a decodable leading token that starts with no dash and matches no
registered command (neither by short nor by long name) resolves to the
global command with the token left unconsumed (base offset 1), and the
dispatch loop then hands that token to the positional-input binder without
any error — so the unrecognized word by itself produces no Command-type
error once a global command exists. -/
theorem claim_C6 (p : Config) (g : Command) (t : Str) (rest1 : List Str) (clen cp : Nat)
    (hg : get_global_command p = some g)
    (ht : startsWithDash t = false)
    (hlen : utf8_char_length t = some clen)
    (hcp : codepoint t = some cp)
    (hshort : p.commands.find? (fun c => c.shortname == some cp) = Option.none)
    (hlong : p.commands.find? (fun c => c.longname == t) = Option.none) :
    resolve_command p (t :: rest1) = some (Except.ok (some g, 1))
    ∧ ∀ (cmd : Command) (rc : RCommand) (more : List Str) (i : Nat),
        dispatch_loop cmd (t :: more) i rc = dispatch_loop cmd more (i + 1) (add_input rc cmd t) := by
  constructor
  · by_cases hle : clen ≤ t.length
    · simp [resolve_command, ht, hlen, hle, hcp, hshort, hg]
    · simp [resolve_command, ht, hlen, hle, hlong, hg]
  · intro cmd rc more i
    cases t with
    | nil => simp [dispatch_loop, startsWith3Dash, startsWith2Dash, startsWithDash]
    | cons b bs =>
      have hb : ¬ b = 45 := by
        simp [startsWithDash] at ht
        exact ht
      cases bs with
      | nil => simp [dispatch_loop, startsWith3Dash, startsWith2Dash, startsWithDash, hb]
      | cons b2 bs2 =>
        cases bs2 with
        | nil => simp [dispatch_loop, startsWith3Dash, startsWith2Dash, startsWithDash, hb]
        | cons b3 bs3 =>
          simp [dispatch_loop, startsWith3Dash, startsWith2Dash, startsWithDash, hb]

/-- C6 witness: the word "in" matches no command of the fixture and
resolves to its global command with the token unconsumed. -/
theorem claim_C6_witness :
    resolve_command cfgC6 [[105, 110]] =
      some (Except.ok (some ⟨[103], Option.none, [], []⟩, 1)) :=
  (claim_C6 cfgC6 ⟨[103], Option.none, [], []⟩ [105, 110] [] 1 105 rfl rfl rfl rfl
    (by decide) (by decide)).1


/-- When every codepoint of the remaining name portion decodes and resolves
to a registered flag, the combined-form loop succeeds and binds them left
to right. -/
theorem parseMultiFlags_all_found (cmd : Command) (fullname : Str) :
    ∀ (cps : List Nat) (rest : Str) (rc : RCommand),
      decodeCodepoints rest = some cps →
      (∀ cp ∈ cps, (shortFlagLookup cmd cp).isSome) →
      parseMultiFlags cmd fullname rest rc = Except.ok (bindFlags cmd fullname cps rc) := by
  intro cps
  induction cps with
  | nil =>
    intro rest rc hdec _
    cases rest with
    | nil => simp [parseMultiFlags, bindFlags]
    | cons b r1 =>
      simp only [decodeCodepoints] at hdec
      cases hl : utf8_char_length (b :: r1) with
      | none => simp [hl] at hdec
      | some len =>
        simp only [hl] at hdec
        cases hc : codepoint ((b :: r1).take len) with
        | none => simp [hc] at hdec
        | some cp =>
          simp only [hc] at hdec
          cases hd : decodeCodepoints (r1.drop (len - 1)) with
          | none => simp [hd] at hdec
          | some cps2 => simp [hd] at hdec
  | cons c cs ih =>
    intro rest rc hdec hall
    cases rest with
    | nil => simp [decodeCodepoints] at hdec
    | cons b r1 =>
      simp only [decodeCodepoints] at hdec
      cases hl : utf8_char_length (b :: r1) with
      | none => simp [hl] at hdec
      | some len =>
        simp only [hl] at hdec
        cases hc : codepoint ((b :: r1).take len) with
        | none => simp [hc] at hdec
        | some cp =>
          simp only [hc] at hdec
          cases hd : decodeCodepoints (r1.drop (len - 1)) with
          | none => simp [hd] at hdec
          | some cps2 =>
            simp only [hd, Option.some_inj, List.cons.injEq] at hdec
            obtain ⟨hcp, hcps⟩ := hdec
            subst hcp
            subst hcps
            have hc0 := hall cp (by simp)
            cases hfl : shortFlagLookup cmd cp with
            | none => simp [hfl] at hc0
            | some fl =>
              simp only [parseMultiFlags, hl, hc, hfl]
              rw [ih _ _ hd (fun x hx => hall x (by simp [hx]))]
              simp [bindFlags, hfl]

/-- When the codepoints of the remaining name portion decode but some
codepoint resolves to no registered flag, the combined-form loop fails
`UnknownParameter` at the first such codepoint, naming the full name
portion. -/
theorem parseMultiFlags_unknown (cmd : Command) (fullname : Str) :
    ∀ (l1 : List Nat) (cp : Nat) (l2 : List Nat) (rest : Str) (rc : RCommand),
      decodeCodepoints rest = some (l1 ++ cp :: l2) →
      (∀ c ∈ l1, (shortFlagLookup cmd c).isSome) →
      shortFlagLookup cmd cp = Option.none →
      parseMultiFlags cmd fullname rest rc =
        Except.error ⟨⟨fullname, Option.none, EType.flag, ECode.UnknownParameter⟩, 0⟩ := by
  intro l1
  induction l1 with
  | nil =>
    intro cp l2 rest rc hdec _ hnone
    cases rest with
    | nil => simp [decodeCodepoints] at hdec
    | cons b r1 =>
      simp only [decodeCodepoints] at hdec
      cases hl : utf8_char_length (b :: r1) with
      | none => simp [hl] at hdec
      | some len =>
        simp only [hl] at hdec
        cases hc : codepoint ((b :: r1).take len) with
        | none => simp [hc] at hdec
        | some cp1 =>
          simp only [hc] at hdec
          cases hd : decodeCodepoints (r1.drop (len - 1)) with
          | none => simp [hd] at hdec
          | some cps2 =>
            simp only [hd, List.nil_append, Option.some_inj, List.cons.injEq] at hdec
            obtain ⟨hcp, _⟩ := hdec
            subst hcp
            simp only [parseMultiFlags, hl, hc, hnone]
  | cons c cs ih =>
    intro cp l2 rest rc hdec hall hnone
    cases rest with
    | nil => simp [decodeCodepoints] at hdec
    | cons b r1 =>
      simp only [decodeCodepoints] at hdec
      cases hl : utf8_char_length (b :: r1) with
      | none => simp [hl] at hdec
      | some len =>
        simp only [hl] at hdec
        cases hc : codepoint ((b :: r1).take len) with
        | none => simp [hc] at hdec
        | some cp1 =>
          simp only [hc] at hdec
          cases hd : decodeCodepoints (r1.drop (len - 1)) with
          | none => simp [hd] at hdec
          | some cps2 =>
            simp only [hd, List.cons_append, Option.some_inj, List.cons.injEq] at hdec
            obtain ⟨hcp, hcps⟩ := hdec
            subst hcp
            have hc0 := hall cp1 (by simp)
            cases hfl : shortFlagLookup cmd cp1 with
            | none => simp [hfl] at hc0
            | some fl =>
              simp only [parseMultiFlags, hl, hc, hfl]
              exact ih cp l2 _ _ (by rw [hd, hcps]) (fun x hx => hall x (by simp [hx])) hnone

/-- C3: a combined short token (more than one codepoint after the dash)
resolves every codepoint as a flag short name and binds them left to right
in token order; the first codepoint resolving to no registered flag makes
the whole token fail `UnknownParameter`, the error naming the full name
portion of the token. -/
theorem claim_C3 (remaining : List Str) (cmd : Command) (rc : RCommand) (name : Str)
    (len0 : Nat) (cps : List Nat)
    (hn : (remaining.getD 0 []).drop 1 = name)
    (hlen : utf8_char_length name = some len0)
    (hmulti : len0 < name.length)
    (hdec : decodeCodepoints name = some cps) :
    ((∀ cp ∈ cps, (shortFlagLookup cmd cp).isSome) →
      parse_short_argument remaining cmd rc = some (Except.ok (bindFlags cmd name cps rc), 0))
    ∧ (∀ l1 cp l2, cps = l1 ++ cp :: l2 →
        (∀ c ∈ l1, (shortFlagLookup cmd c).isSome) →
        shortFlagLookup cmd cp = Option.none →
        parse_short_argument remaining cmd rc =
          some (Except.error ⟨⟨name, Option.none, EType.flag, ECode.UnknownParameter⟩, 0⟩, 0)) := by
  constructor
  · intro hall
    simp only [parse_short_argument, hn, hlen]
    rw [if_pos hmulti]
    rw [parseMultiFlags_all_found cmd name cps name rc hdec hall]
  · intro l1 cp l2 hsplit hall hnone
    simp only [parse_short_argument, hn, hlen]
    rw [if_pos hmulti]
    rw [parseMultiFlags_unknown cmd name l1 cp l2 name rc (by rw [hdec, hsplit]) hall hnone]

/-- C3 witness: on the command with flags shortnamed 'a' and 'b', the
token `-ab` binds both flags in order. -/
theorem claim_C3_witness :
    parse_short_argument [[45, 97, 98]] cmdC3 rc0 =
      some (Except.ok (bindFlags cmdC3 [97, 98] [97, 98] rc0), 0) :=
  (claim_C3 [[45, 97, 98]] cmdC3 rc0 [97, 98] 1 [97, 98] rfl rfl (by decide)
    (by simp [decodeCodepoints, utf8_char_length, codepoint])).1 (by decide)

/-- Membership in the post-validation missing set: exactly the long names
of required arguments not bound as argument parameters. -/
theorem mem_missingRequired (cmd : Command) (rc : RCommand) (n : Str) :
    n ∈ missingRequired cmd rc ↔
      (∃ a ∈ cmd.arguments, a.required ∧ a.longname = n)
      ∧ ¬ n ∈ boundArgNames rc.parameters := by
  simp [missingRequired, List.mem_filter, List.mem_map, List.elem_iff]
  tauto

/-- `post_validate` fails (necessarily with `RequiredArgument`) exactly
when some required argument is unbound. -/
theorem post_validate_error_iff (cmd : Command) (rc : RCommand) :
    (∃ e, post_validate cmd rc = Except.error e ∧ e.error.code = ECode.RequiredArgument) ↔
      ∃ a ∈ cmd.arguments, a.required ∧ ¬ a.longname ∈ boundArgNames rc.parameters := by
  constructor
  · rintro ⟨e, he, _⟩
    cases hm : missingRequired cmd rc with
    | nil => simp [post_validate, hm] at he
    | cons m ms =>
      have hin : m ∈ missingRequired cmd rc := by rw [hm]; simp
      obtain ⟨⟨a, ha, hreq, hln⟩, hb⟩ := (mem_missingRequired cmd rc m).mp hin
      exact ⟨a, ha, hreq, by rw [hln]; exact hb⟩
  · rintro ⟨a, ha, hreq, hb⟩
    have hin : a.longname ∈ missingRequired cmd rc :=
      (mem_missingRequired cmd rc a.longname).mpr ⟨⟨a, ha, hreq, rfl⟩, hb⟩
    cases hm : missingRequired cmd rc with
    | nil => rw [hm] at hin; simp at hin
    | cons m ms => exact ⟨⟨⟨m, Option.none, EType.argument, ECode.RequiredArgument⟩, 0⟩,
        by simp [post_validate, hm], rfl⟩

/-- C4: after the dispatch loop completes without a token-level error,
parsing fails `RequiredArgument` exactly when some required argument of the
resolved command has no bound argument parameter carrying its long name;
and every argument binding (the single path used by both the long form
`--name=v` and the short form `-x v`) records the registered long name, so
either form satisfies the requirement. -/
theorem claim_C4 (args : List Str) (cmd : Command) (rc : RCommand)
    (hloop : dispatch_loop cmd args 0 ⟨cmd.longname, []⟩ = some (Except.ok rc)) :
    ((∃ e, parse_command args cmd = some (Except.error e)
        ∧ e.error.code = ECode.RequiredArgument) ↔
      ∃ a ∈ cmd.arguments, a.required ∧ ¬ a.longname ∈ boundArgNames rc.parameters)
    ∧ ∀ (rc1 : RCommand) (a : Argument) (nm v : Str),
        a.longname ∈ boundArgNames (add_argument rc1 a nm v).parameters := by
  constructor
  · have hpc : parse_command args cmd = some (post_validate cmd rc) := by
      simp [parse_command, hloop]
    rw [hpc]
    constructor
    · rintro ⟨e, he, hcode⟩
      have he1 : post_validate cmd rc = Except.error e := by simpa using he
      exact (post_validate_error_iff cmd rc).mp ⟨e, he1, hcode⟩
    · intro h
      obtain ⟨e, he, hcode⟩ := (post_validate_error_iff cmd rc).mpr h
      exact ⟨e, by rw [he], hcode⟩
  · intro rc1 a nm v
    simp [add_argument, boundArgNames, List.filterMap_append]

/-- C4 witness: the command with required argument "out" and no tokens at
all fails `RequiredArgument`. -/
theorem claim_C4_witness :
    ∃ e, parse_command [] cmdC4 = some (Except.error e)
      ∧ e.error.code = ECode.RequiredArgument :=
  (claim_C4 [] cmdC4 ⟨cmdC4.longname, []⟩ rfl).1.mpr
    ⟨⟨[111, 117, 116], some 111, true⟩, by decide, rfl, by decide⟩

/-- Errors produced inside long-option resolution carry local position 0. -/
theorem parse_long_argument_err_pos (arg : Str) (cmd : Command) (rc : RCommand)
    (e : PositionnedError) (h : parse_long_argument arg cmd rc = Except.error e) :
    e.position = 0 := by
  simp only [parse_long_argument] at h
  repeat' split at h
  all_goals simp_all
  all_goals rw [← h]

/-- Errors produced inside the combined-form loop carry local position 0. -/
theorem parseMultiFlags_err_pos (cmd : Command) (fullname : Str) :
    ∀ (n : Nat) (rest : Str) (rc : RCommand) (e : PositionnedError),
      rest.length ≤ n →
      parseMultiFlags cmd fullname rest rc = Except.error e →
      e.position = 0 := by
  intro n
  induction n with
  | zero =>
    intro rest rc e hle h
    cases rest with
    | nil => simp [parseMultiFlags] at h
    | cons b r1 => simp at hle
  | succ n ih =>
    intro rest rc e hle h
    cases rest with
    | nil => simp [parseMultiFlags] at h
    | cons b r1 =>
      simp only [parseMultiFlags] at h
      cases hl : utf8_char_length (b :: r1) with
      | none =>
        simp only [hl, Except.error.injEq] at h
        rw [← h]
      | some len =>
        simp only [hl] at h
        cases hc : codepoint ((b :: r1).take len) with
        | none =>
          simp only [hc, Except.error.injEq] at h
          rw [← h]
        | some cp =>
          simp only [hc] at h
          cases hfl : shortFlagLookup cmd cp with
          | none =>
            simp only [hfl, Except.error.injEq] at h
            rw [← h]
          | some fl =>
            simp only [hfl] at h
            refine ih (r1.drop (len - 1)) _ e ?_ h
            simp only [List.length_cons] at hle
            simp only [List.length_drop]
            omega

/-- Shape facts about short-option parsing: the iterator advances at most
one token, errors carry local position 0, and a successful advance implies
a value token followed the option token. -/
theorem parse_short_argument_facts (remaining : List Str) (cmd : Command) (rc : RCommand)
    (x : Except PositionnedError RCommand) (adv : Nat)
    (h : parse_short_argument remaining cmd rc = some (x, adv)) :
    adv ≤ 1
    ∧ (∀ e, x = Except.error e → e.position = 0)
    ∧ (∀ rc1, x = Except.ok rc1 → adv = 1 → 2 ≤ remaining.length) := by
  simp only [parse_short_argument, List.getD_eq_getElem?_getD, List.drop_one] at h
  cases hl : utf8_char_length (remaining[0]?.getD []).tail with
  | none =>
    simp only [hl] at h
    exact Option.noConfusion h
  | some len0 =>
    simp only [hl] at h
    by_cases hm : len0 < (remaining[0]?.getD []).tail.length
    · rw [if_pos hm] at h
      simp only [Option.some_inj, Prod.mk.injEq] at h
      obtain ⟨hx, hadv⟩ := h
      refine ⟨by omega, ?_, by intro _ _ h1; omega⟩
      intro e he
      rw [← hx] at he
      exact parseMultiFlags_err_pos cmd _ _ _ _ e le_rfl he
    · rw [if_neg hm] at h
      cases hc : codepoint (remaining[0]?.getD []).tail with
      | none =>
        simp only [hc, Option.some_inj, Prod.mk.injEq] at h
        obtain ⟨hx, hadv⟩ := h
        refine ⟨by omega, ?_, by intro _ _ h1; omega⟩
        intro e he
        rw [← hx] at he
        injection he with he
        rw [← he]
      | some cp =>
        simp only [hc] at h
        cases hfl : shortFlagLookup cmd cp with
        | some fl =>
          simp only [hfl, Option.some_inj, Prod.mk.injEq] at h
          obtain ⟨hx, hadv⟩ := h
          refine ⟨by omega, ?_, by intro _ _ h1; omega⟩
          intro e he
          rw [← hx] at he
          cases he
        | none =>
          simp only [hfl] at h
          cases ha : shortArgLookup cmd cp with
          | some a =>
            simp only [ha] at h
            cases remaining with
            | nil =>
              simp only [Option.some_inj, Prod.mk.injEq] at h
              obtain ⟨hx, hadv⟩ := h
              refine ⟨by omega, ?_, ?_⟩
              · intro e he
                rw [← hx] at he
                injection he with he
                rw [← he]
              · intro rc1 hok _
                rw [← hx] at hok
                cases hok
            | cons t rest1 =>
              cases rest1 with
              | nil =>
                simp only [Option.some_inj, Prod.mk.injEq] at h
                obtain ⟨hx, hadv⟩ := h
                refine ⟨by omega, ?_, ?_⟩
                · intro e he
                  rw [← hx] at he
                  injection he with he
                  rw [← he]
                · intro rc1 hok _
                  rw [← hx] at hok
                  cases hok
              | cons v more =>
                simp only [Option.some_inj, Prod.mk.injEq] at h
                obtain ⟨hx, hadv⟩ := h
                refine ⟨by omega, ?_, ?_⟩
                · intro e he
                  rw [← hx] at he
                  cases he
                · intro rc1 _ _
                  simp
          | none =>
            simp only [ha, Option.some_inj, Prod.mk.injEq] at h
            obtain ⟨hx, hadv⟩ := h
            refine ⟨by omega, ?_, by intro _ _ h1; omega⟩
            intro e he
            rw [← hx] at he
            injection he with he
            rw [← he]

/-- Errors leaving the dispatch loop have positions bounded by the start
index plus the number of remaining tokens (a trailing missing-value slot
can reach exactly that bound). -/
theorem dispatch_loop_err_pos (cmd : Command) :
    ∀ (n : Nat) (rest : List Str) (i : Nat) (rc : RCommand) (e : PositionnedError),
      rest.length ≤ n →
      dispatch_loop cmd rest i rc = some (Except.error e) →
      e.position ≤ i + rest.length := by
  intro n
  induction n with
  | zero =>
    intro rest i rc e hle h
    cases rest with
    | nil => simp [dispatch_loop] at h
    | cons name more => simp at hle
  | succ n ih =>
    intro rest i rc e hle h
    cases rest with
    | nil => simp [dispatch_loop] at h
    | cons name more =>
      simp only [List.length_cons] at hle
      simp only [dispatch_loop] at h
      by_cases h3 : startsWith3Dash name = true
      · rw [if_pos h3] at h
        simp only [Option.some_inj, Except.error.injEq] at h
        rw [← h]
        simp only [List.length_cons]
        omega
      · rw [if_neg h3] at h
        by_cases h2 : startsWith2Dash name = true
        · rw [if_pos h2] at h
          cases hl : parse_long_argument name cmd rc with
          | error e1 =>
            simp only [hl, Option.some_inj, Except.error.injEq] at h
            rw [← h]
            have hp := parse_long_argument_err_pos name cmd rc e1 hl
            simp only [List.length_cons, hp]
            omega
          | ok rc1 =>
            simp only [hl] at h
            have hb := ih more (i + 1) rc1 e (by omega) h
            simp only [List.length_cons]
            omega
        · rw [if_neg h2] at h
          by_cases h1 : startsWithDash name = true
          · rw [if_pos h1] at h
            cases hs : parse_short_argument (name :: more) cmd rc with
            | none =>
              simp only [hs] at h
              exact Option.noConfusion h
            | some p =>
              obtain ⟨x, adv⟩ := p
              obtain ⟨hadv, herr, hok⟩ := parse_short_argument_facts _ _ _ _ _ hs
              cases x with
              | error e1 =>
                simp only [hs, Option.some_inj, Except.error.injEq] at h
                rw [← h]
                have hp := herr e1 rfl
                simp only [List.length_cons, hp]
                omega
              | ok rc1 =>
                cases adv with
                | zero =>
                  simp only [hs] at h
                  have hb := ih more (i + 1) rc1 e (by omega) h
                  simp only [List.length_cons]
                  omega
                | succ k =>
                  cases more with
                  | nil =>
                    have h2len := hok rc1 rfl (by omega)
                    simp at h2len
                  | cons v more1 =>
                    simp only [hs] at h
                    have hb := ih more1 (i + 2) rc1 e
                      (by simp only [List.length_cons] at hle; omega) h
                    simp only [List.length_cons]
                    omega
          · rw [if_neg h1] at h
            have hb := ih more (i + 1) (add_input rc cmd name) e (by omega) h
            simp only [List.length_cons]
            omega

/-- Post-validation errors carry local position 0. -/
theorem post_validate_err_pos (cmd : Command) (rc : RCommand) (e : PositionnedError)
    (h : post_validate cmd rc = Except.error e) : e.position = 0 := by
  simp only [post_validate] at h
  cases hm : missingRequired cmd rc with
  | nil => simp only [hm] at h; exact Except.noConfusion h
  | cons m ms =>
    simp only [hm, Except.error.injEq] at h
    rw [← h]

/-- Errors leaving `parse_command` have positions bounded by the length of
the scanned sub-slice. -/
theorem parse_command_err_pos (args : List Str) (cmd : Command) (e : PositionnedError)
    (h : parse_command args cmd = some (Except.error e)) : e.position ≤ args.length := by
  simp only [parse_command] at h
  cases hl : dispatch_loop cmd args 0 ⟨cmd.longname, []⟩ with
  | none => simp only [hl] at h; exact Option.noConfusion h
  | some x =>
    cases x with
    | error e1 =>
      simp only [hl, Option.some_inj, Except.error.injEq] at h
      rw [← h]
      simpa using dispatch_loop_err_pos cmd args.length args 0 ⟨cmd.longname, []⟩ e1 le_rfl hl
    | ok rc =>
      simp only [hl] at h
      cases hp : post_validate cmd rc with
      | error e1 =>
        simp only [hp, Option.some_inj, Except.error.injEq] at h
        rw [← h]
        rw [post_validate_err_pos cmd rc e1 hp]
        omega
      | ok rc1 => simp only [hp] at h; exact Except.noConfusion (Option.some.inj h)

/-- Errors produced by command resolution carry position 1 (the first
non-program token). -/
theorem resolve_command_err_pos (p : Config) (rest : List Str) (e : PositionnedError)
    (h : resolve_command p rest = some (Except.error e)) : e.position = 1 := by
  simp only [resolve_command] at h
  repeat' split at h
  all_goals simp_all
  all_goals rw [← h]

/-- Shape facts about command resolution: the base offset is 1 or 2, it is
2 only when a leading token was consumed, and it is 1 whenever no command
was selected. -/
theorem resolve_command_ok_facts (p : Config) (rest : List Str)
    (copt : Option Command) (d : Nat)
    (h : resolve_command p rest = some (Except.ok (copt, d))) :
    (d = 1 ∨ (d = 2 ∧ 1 ≤ rest.length)) ∧ (copt = Option.none → d = 1) := by
  simp only [resolve_command] at h
  repeat' split at h
  all_goals simp_all
  all_goals (intro hco; subst hco; simp_all)

/-- C5 counterexample: with a value argument `-n` as the final token, the
short-option path advances the iterator past the end before failing
`MissingValue`, so the final error position equals the vector length — it
is not a valid index into the original argument vector, refuting the claim
that every error position indexes it. -/
theorem claim_C5_counterexample :
    parse cfgC5 [[112], [45, 110]] =
      some (Except.error ⟨⟨[110], Option.none, EType.argument, ECode.MissingValue⟩, 2⟩)
    ∧ ¬ ((⟨⟨[110], Option.none, EType.argument, ECode.MissingValue⟩, 2⟩ :
        PositionnedError).position < ([[112], [45, 110]] : List Str).length) := by
  constructor
  · simp [parse, resolve_command, cfgC5, get_global_command, startsWithDash, parse_command,
      dispatch_loop, startsWith3Dash, startsWith2Dash, parse_short_argument, utf8_char_length,
      codepoint, shortFlagLookup, shortArgLookup, List.find?, isCont]
  · decide

/-- C5 amended: every error leaving `parse` carries a position relative to
the original argument vector obtained by adding the sub-slice base offset
at each layer boundary, and that position is bounded by the vector length —
it may equal the length (one past the last index) when the error refers to
a missing following token, so it does not always index the vector. -/
theorem claim_C5_amended :
    (∀ (p : Config) (args : List Str) (e : PositionnedError),
      parse p args = some (Except.error e) → e.position ≤ args.length)
    ∧ (∀ (p : Config) (prog : Str) (rest : List Str) (c : Command) (d : Nat)
        (e1 : PositionnedError),
      resolve_command p rest = some (Except.ok (some c, d)) →
      parse_command ((prog :: rest).drop d) c = some (Except.error e1) →
      parse p (prog :: rest) = some (Except.error ⟨e1.error, e1.position + d⟩)) := by
  constructor
  · intro p args e h
    cases args with
    | nil => simp [parse] at h
    | cons prog rest =>
      simp only [parse] at h
      cases hres : resolve_command p rest with
      | none =>
        simp only [hres] at h
        exact Option.noConfusion h
      | some x =>
        cases x with
        | error e0 =>
          simp only [hres, Option.some_inj, Except.error.injEq] at h
          rw [← h]
          rw [resolve_command_err_pos p rest e0 hres]
          simp only [List.length_cons]
          omega
        | ok pr =>
          obtain ⟨copt, d⟩ := pr
          simp only [hres] at h
          obtain ⟨hd, hnone⟩ := resolve_command_ok_facts p rest copt d hres
          cases copt with
          | none =>
            simp only [Option.some_inj, Except.error.injEq] at h
            rw [← h]
            have hd1 := hnone rfl
            simp only [List.length_cons]
            omega
          | some c =>
            cases hpc : parse_command ((prog :: rest).drop d) c with
            | none =>
              simp only [hpc] at h
              exact Option.noConfusion h
            | some y =>
              cases y with
              | error e1 =>
                simp only [hpc, Option.some_inj, Except.error.injEq] at h
                rw [← h]
                have hb := parse_command_err_pos _ c e1 hpc
                simp only [List.length_drop, List.length_cons] at hb
                simp only [List.length_cons]
                rcases hd with h1 | ⟨h2, hlen⟩ <;> omega
              | ok rcmd =>
                simp only [hpc] at h
                exact Except.noConfusion (Option.some.inj h)
  · intro p prog rest c d e1 hres hpc
    simp only [parse, hres, hpc]

/-- C5 amended witness: on the counterexample input the bound is attained
with equality. -/
theorem claim_C5_amended_witness :
    (⟨⟨[110], Option.none, EType.argument, ECode.MissingValue⟩, 2⟩ :
        PositionnedError).position ≤ ([[112], [45, 110]] : List Str).length :=
  claim_C5_amended.1 cfgC5 [[112], [45, 110]]
    ⟨⟨[110], Option.none, EType.argument, ECode.MissingValue⟩, 2⟩ (by
      simp [parse, resolve_command, cfgC5, get_global_command, startsWithDash, parse_command,
        dispatch_loop, startsWith3Dash, startsWith2Dash, parse_short_argument, utf8_char_length,
        codepoint, shortFlagLookup, shortArgLookup, List.find?, isCont])

end CmdParser
